import Mathlib

/-
  Verification of the LVR-Auction-Hook backend against its specification.

  The repository ships two Python files: `src/backend/api/routes/auctions.py`
  (HTTP route handlers delegating to an `AuctionService`) and
  `src/backend/server.py` (FastAPI app wiring, health and metrics endpoints).
  The auction lifecycle engine itself (`services/auction_service.py`) is not in
  the repository; following the spec, engine operations are modelled from the
  spec's own words (sections 3, 4.2, 4.3, 4.4, 5) and marked as such in their
  doc comments.  Route-level and server-level behaviour is embedded from the
  Python source directly.
-/

namespace LVRAuction

/-- Auction lifecycle status, spec section 3 (`status` field of Auction). -/
inductive AuctionStatus where
  | pending
  | active
  | revealing
  | completed
  | expired
  | cancelled
deriving DecidableEq, Repr, Fintype

/-- Bid record, spec section 3.  Amounts are modelled as rationals (the Python
code uses floats only for comparisons and bounds). -/
structure Bid where
  bid_id : String
  auction_id : String
  bidder : String
  commitment : String
  amount : Rat
  timestamp : Int
  revealed : Bool
  reveal_amount : Option Rat
  reveal_nonce : Option String
  reveal_time : Option Int
deriving DecidableEq, Repr

/-- Auction record, spec section 3.  `revealing_since` records when the
auction entered Revealing, used by the Monitor's reveal deadline. -/
structure Auction where
  id : String
  pool_id : String
  start_time : Int
  duration : Int
  min_bid : Rat
  status : AuctionStatus
  winner : Option String
  winning_bid : Option Rat
  mev_recovered : Option Rat
  block_number : Nat
  revealing_since : Option Int
deriving DecidableEq, Repr

/-- Engine state: the Auction Store's contents (spec section 4.1). -/
structure EngineState where
  auctions : List Auction
  bids : List Bid
deriving DecidableEq, Repr

/-- The empty initial store. -/
def initialState : EngineState := ⟨[], []⟩

/-- Error taxonomy of spec section 7. -/
inductive ErrKind where
  | notFound
  | invalidArgument
  | invalidState
  | conflict
deriving DecidableEq, Repr

/-- Configured floor for `min_bid`, from `AuctionCreateRequest`
(auctions.py line 31: `min_bid: float = Field(default=0.001, ge=0.001)`). -/
def MIN_BID_FLOOR : Rat := mkRat 1 1000

/-- All bids of one auction, in arrival order. -/
def auctionBids (s : EngineState) (auction_id : String) : List Bid :=
  s.bids.filter (fun b => b.auction_id == auction_id)

/-- Revealed amount of a bid (0 when not yet revealed). -/
def revAmt (b : Bid) : Rat := b.reveal_amount.getD 0

/-- Reveal timestamp of a bid (0 when not yet revealed). -/
def revT (b : Bid) : Int := b.reveal_time.getD 0

/-- Modelled from the spec: strict "is a better winner" comparison of section
4.3's winner-determination algorithm (the `AuctionService` implementation is
missing from the repository): higher revealed amount first, ties broken by
earlier reveal timestamp, then by lexicographically smaller bidder. -/
def betterBid (b w : Bid) : Bool :=
  decide (revAmt w < revAmt b ∨
    (revAmt b = revAmt w ∧
      (revT b < revT w ∨ (revT b = revT w ∧ b.bidder < w.bidder))))

/-- Keep the better of an accumulator and a candidate bid. -/
def pickBetter (w b : Bid) : Bid := if betterBid b w then b else w

/-- Select the best bid of a list, none when empty. -/
def selectWinner : List Bid → Option Bid
  | [] => none
  | b :: rest => some (rest.foldl pickBetter b)

/-- Modelled from the spec: winner-determination algorithm of section 4.3
(missing `AuctionService`): among all revealed bids select the maximum
amount, tie-broken by earliest reveal timestamp then smallest bidder. -/
def determineWinner (l : List Bid) : Option Bid :=
  selectWinner (l.filter (fun b => b.revealed))

/-- Modelled from the spec: Commitment Verifier of section 4.2 (missing from
the repository): recompute the commitment from (amount, nonce) with the agreed
hash function `H` and compare byte-for-byte. -/
def verify (H : Rat → String → String) (commitment : String)
    (amount : Rat) (nonce : String) : Bool :=
  H amount nonce == commitment

/-- Unary rendering of a counter, used to build fresh opaque identifiers. -/
def natTag : Nat → String
  | 0 => ""
  | n + 1 => natTag n ++ ("i")

/-- Fresh auction identifier (opaque, unique per store). -/
def newAuctionId (s : EngineState) : String :=
  ("auction-") ++ natTag s.auctions.length

/-- Fresh bid identifier (opaque, unique per store). -/
def newBidId (s : EngineState) : String :=
  ("bid-") ++ natTag s.bids.length

/-- Modelled from the spec: engine `createAuction` of section 4.3 (missing
`AuctionService`); the validation bounds come from `AuctionCreateRequest`
(auctions.py lines 28-31): duration in [1,60] minutes, min_bid at least the
configured floor.  On success a new Pending auction is persisted. -/
def createAuction (s : EngineState) (pool_id : String) (duration : Int)
    (min_bid : Rat) (block_number : Nat) (now : Int) :
    Except ErrKind (Auction × EngineState) :=
  if duration < 1 ∨ 60 < duration ∨ min_bid < MIN_BID_FLOOR then
    .error .invalidArgument
  else
    let a : Auction :=
      { id := newAuctionId s, pool_id := pool_id, start_time := now,
        duration := duration, min_bid := min_bid, status := .pending,
        winner := none, winning_bid := none, mev_recovered := none,
        block_number := block_number, revealing_since := none }
    .ok (a, { s with auctions := s.auctions ++ [a] })

/-- Apply a status-guarded mutator to the auction with the given id
(spec section 5: optimistic per-auction compare-and-set update path). -/
def updateAuctionRecord (s : EngineState) (auction_id : String)
    (f : Auction → Auction) : EngineState :=
  { s with auctions := s.auctions.map (fun a => if a.id == auction_id then f a else a) }

/-- Modelled from the spec: Pending auctions move to Active (section 3
lifecycle: "immediately or on first bid moves to Active"); guarded CAS. -/
def activateAuction (s : EngineState) (auction_id : String) : EngineState :=
  updateAuctionRecord s auction_id
    (fun a => if a.status = .pending then { a with status := .active } else a)

/-- Modelled from the spec: administrative cancellation (section 5): allowed
only from Pending or Active; terminal. -/
def cancelAuction (s : EngineState) (auction_id : String) : EngineState :=
  updateAuctionRecord s auction_id
    (fun a => if a.status = .pending ∨ a.status = .active
              then { a with status := .cancelled } else a)

/-- Modelled from the spec: engine `submitBid` of section 4.3 (missing
`AuctionService`): requires the auction to exist (`NotFound`) and be Active
(`InvalidState`); `amount` is NOT checked against `min_bid` at submission;
appends a Bid with `revealed := false` recording the commitment. -/
def submitBid (s : EngineState) (auction_id bidder : String) (amount : Rat)
    (commitment : String) (now : Int) : Except ErrKind (Bid × EngineState) :=
  match s.auctions.find? (fun a => a.id == auction_id) with
  | none => .error .notFound
  | some a =>
    if a.status = .active then
      let b : Bid :=
        { bid_id := newBidId s, auction_id := auction_id, bidder := bidder,
          amount := amount, commitment := commitment, timestamp := now,
          revealed := false, reveal_amount := none, reveal_nonce := none,
          reveal_time := none }
      .ok (b, { s with bids := s.bids ++ [b] })
    else .error .invalidState

/-- Mark the first unrevealed bid of `bidder` on `auction_id` whose commitment
matches (amount, nonce) as revealed; none when no bid matches. -/
def markFirstReveal (H : Rat → String → String) (auction_id bidder : String)
    (amount : Rat) (nonce : String) (now : Int) : List Bid → Option (List Bid)
  | [] => none
  | b :: rest =>
    if b.auction_id == auction_id && b.bidder == bidder && !b.revealed
        && verify H b.commitment amount nonce then
      some ({ b with
              revealed := true
              reveal_amount := some amount
              reveal_nonce := some nonce
              reveal_time := some now } :: rest)
    else
      (markFirstReveal H auction_id bidder amount nonce now rest).map (b :: ·)

/-- Modelled from the spec: engine `revealBid` of section 4.3 (missing
`AuctionService`): locates the bidder's sealed bids, verifies each commitment,
marks the first match revealed; returns false (not an exception) when nothing
matches; reveals permitted while Revealing or Active (overlap policy). -/
def revealBid (H : Rat → String → String) (s : EngineState)
    (auction_id bidder : String) (amount : Rat) (nonce : String) (now : Int) :
    Bool × EngineState :=
  match s.auctions.find? (fun a => a.id == auction_id) with
  | none => (false, s)
  | some a =>
    if a.status = .revealing ∨ a.status = .active then
      match markFirstReveal H auction_id bidder amount nonce now s.bids with
      | none => (false, s)
      | some bids2 => (true, { s with bids := bids2 })
    else (false, s)

/-- Guarded completion mutator: commits only while Revealing or Active
(spec section 5 optimistic check). -/
def completeMutator (winner : String) (winning_bid : Rat) (a : Auction) : Auction :=
  if a.status = .revealing ∨ a.status = .active then
    { a with
      status := .completed
      winner := some winner
      winning_bid := some winning_bid
      mev_recovered := some winning_bid }
  else a

/-- Modelled from the spec: engine `completeAuction` of section 4.3 and the
design note (missing `AuctionService`): internally recomputes the winner from
the revealed bids and rejects a mismatched external claim with `Conflict`;
requires the auction to exist and be in Revealing (or Active overlap);
`mev_recovered` equals the winning bid. -/
def completeAuction (s : EngineState) (auction_id winner : String)
    (winning_bid : Rat) : Except ErrKind EngineState :=
  match s.auctions.find? (fun a => a.id == auction_id) with
  | none => .error .notFound
  | some a =>
    if a.status = .revealing ∨ a.status = .active then
      match determineWinner (auctionBids s auction_id) with
      | none => .error .conflict
      | some w =>
        if w.bidder = winner ∧ revAmt w = winning_bid then
          .ok (updateAuctionRecord s auction_id (completeMutator winner winning_bid))
        else .error .conflict
    else .error .invalidState

/-- Modelled from the spec: one Monitor step on a single auction (section
4.4, missing `AuctionService`): an elapsed Active auction moves to Revealing,
or directly to Expired when it has no bids; an elapsed Revealing auction is
settled by winner determination (Completed) or expires with no revealed bid;
terminal and Pending auctions are skipped. -/
def tickAuction (s : EngineState) (rw now : Int) (a : Auction) : Auction :=
  match a.status with
  | .active =>
    if a.start_time + a.duration * 60 ≤ now then
      if (auctionBids s a.id).isEmpty then { a with status := .expired }
      else { a with status := .revealing, revealing_since := some now }
    else a
  | .revealing =>
    if (match a.revealing_since with | some t => decide (t + rw ≤ now) | none => false) then
      match determineWinner (auctionBids s a.id) with
      | some w =>
        { a with
          status := .completed
          winner := some w.bidder
          winning_bid := some (revAmt w)
          mev_recovered := some (revAmt w) }
      | none => { a with status := .expired }
    else a
  | _ => a

/-- Modelled from the spec: one Lifecycle Monitor tick over all auctions
(section 4.4), with reveal window `rw`. -/
def monitorTick (s : EngineState) (rw now : Int) : EngineState :=
  { s with auctions := s.auctions.map (tickAuction s rw now) }

/-- One engine, monitor or administrative operation (spec sections 4.3-4.5). -/
inductive Op where
  | create (pool_id : String) (duration : Int) (min_bid : Rat)
      (block_number : Nat) (now : Int)
  | activate (auction_id : String)
  | submit (auction_id bidder : String) (amount : Rat) (commitment : String)
      (now : Int)
  | reveal (auction_id bidder : String) (amount : Rat) (nonce : String)
      (now : Int)
  | complete (auction_id winner : String) (winning_bid : Rat)
  | cancel (auction_id : String)
  | tick (rw now : Int)
deriving Repr

/-- State after one operation (failed operations leave the store unchanged,
spec section 7: errors are reported, never partially applied). -/
def applyOp (H : Rat → String → String) (s : EngineState) : Op → EngineState
  | .create pool_id duration min_bid block_number now =>
    match createAuction s pool_id duration min_bid block_number now with
    | .ok (_, s2) => s2
    | .error _ => s
  | .activate auction_id => activateAuction s auction_id
  | .submit auction_id bidder amount commitment now =>
    match submitBid s auction_id bidder amount commitment now with
    | .ok (_, s2) => s2
    | .error _ => s
  | .reveal auction_id bidder amount nonce now =>
    (revealBid H s auction_id bidder amount nonce now).2
  | .complete auction_id winner winning_bid =>
    match completeAuction s auction_id winner winning_bid with
    | .ok s2 => s2
    | .error _ => s
  | .cancel auction_id => cancelAuction s auction_id
  | .tick rw now => monitorTick s rw now

/-- State after a sequence of operations. -/
def runOps (H : Rat → String → String) (s : EngineState) : List Op → EngineState
  | [] => s
  | op :: rest => runOps H (applyOp H s op) rest

/-- The forward status transitions of spec section 3's lifecycle invariant:
Pending → Active → Revealing → Completed or Expired, with an Active auction
allowed to expire directly when it never received bids (section 4.4) or to
settle directly under the Active reveal-overlap policy (section 4.3), and
Cancelled reachable from Pending or Active only.  No backward edge exists. -/
def forwardStep : AuctionStatus → AuctionStatus → Bool
  | .pending, .active => true
  | .pending, .cancelled => true
  | .active, .revealing => true
  | .active, .completed => true
  | .active, .expired => true
  | .active, .cancelled => true
  | .revealing, .completed => true
  | .revealing, .expired => true
  | _, _ => false

/-- Propositional form of `forwardStep`. -/
def ForwardStepP (s1 s2 : AuctionStatus) : Prop := forwardStep s1 s2 = true

/-- A revealed bid carries reveal values that recompute, under the agreed
hash `H`, to its stored commitment byte-for-byte. -/
def revealedOk (H : Rat → String → String) (b : Bid) : Prop :=
  b.revealed = true →
    ∃ amt non, b.reveal_amount = some amt ∧ b.reveal_nonce = some non ∧
      H amt non = b.commitment

/-- Store-wide reveal integrity invariant. -/
def InvRevealed (H : Rat → String → String) (s : EngineState) : Prop :=
  ∀ b ∈ s.bids, revealedOk H b

/-- Outcome of evaluating a Python handler body: a normal return value or an
uncaught NameError on an unresolvable name. -/
inductive PyOutcome (α : Type) where
  | ok (v : α)
  | nameError (name : String)
deriving DecidableEq, Repr

/-- Names bound at module scope in server.py: the imports of lines 6-22 and
the module-level definitions (loggers, metrics, service globals, app and the
handler functions). -/
def serverModuleNames : List String :=
  ["asyncio", "logging", "asynccontextmanager", "Dict", "List", "Optional",
   "FastAPI", "HTTPException", "Depends", "WebSocket", "WebSocketDisconnect",
   "CORSMiddleware", "JSONResponse", "structlog", "Counter", "Histogram",
   "generate_latest", "CONTENT_TYPE_LATEST", "auctions", "operators",
   "price_feeds", "metrics", "AuctionService", "PriceService",
   "OperatorService", "WebSocketManager", "init_db", "logger",
   "REQUEST_COUNT", "REQUEST_DURATION", "auction_service", "price_service",
   "operator_service", "websocket_manager", "lifespan", "app", "root",
   "health_check", "websocket_endpoint", "prometheus_metrics",
   "get_auction_service", "get_price_service", "get_operator_service",
   "http_exception_handler", "general_exception_handler"]

/-- The GET /metrics handler of server.py (lines 144-147): its body returns
`Response(generate_latest(), media_type=CONTENT_TYPE_LATEST)`, so it first
resolves the name `Response` in module scope; when that name is unbound the
handler raises NameError instead of returning the payload. -/
def prometheus_metrics (payload : String) (env : List String) : PyOutcome String :=
  if env.contains ("Response") then .ok payload else .nameError ("Response")

/-- Response shape of the GET /health handler. -/
structure HealthResponse where
  status : String
  timestamp : String
  auction_service : Bool
  price_service : Bool
  operator_service : Bool
deriving DecidableEq, Repr

/-- The GET /health handler of server.py (lines 119-130).  Each global
service handle is an `Option Bool` holding what its `is_healthy()` would
return when the handle is initialized; the handler never reads the clock
(`now` is unused) and reports the hard-coded timestamp literal. -/
def health_check (now : Int) (auction_service price_service operator_service :
    Option Bool) : HealthResponse :=
  { status := "healthy",
    timestamp := "2024-01-01T00:00:00Z",
    auction_service := match auction_service with | some h => h | none => false,
    price_service := match price_service with | some h => h | none => false,
    operator_service := match operator_service with | some h => h | none => false }

/-- Boundary result of a route handler: a 200 payload or an HTTP error. -/
inductive RouteResult (α : Type) where
  | ok (v : α)
  | httpError (code : Nat) (detail : String)
deriving DecidableEq, Repr

/-- The POST /auctions/.../reveal route handler (auctions.py lines 136-158),
embedded from the source: it calls the engine and maps a false result to an
HTTP 400 client error, a true result to a success message. -/
def reveal_bid (H : Rat → String → String) (s : EngineState)
    (auction_id bidder : String) (amount : Rat) (nonce : String) (now : Int) :
    RouteResult String × EngineState :=
  let r := revealBid H s auction_id bidder amount nonce now
  if r.1 then ((.ok ("Bid revealed successfully")), r.2)
  else ((.httpError 400 ("Failed to reveal bid")), r.2)

/-- Lexicographic sort key of a bid for winner determination: amount
descending, then reveal time ascending, then bidder ascending. -/
def bidKey (b : Bid) : Rat ×ₗ (Int ×ₗ String) :=
  toLex (-(revAmt b), toLex (revT b, b.bidder))

/-- Rank of a status along the lifecycle ordering (terminal statuses share
the final rank). -/
def statusRank : AuctionStatus → Nat
  | .pending => 0
  | .active => 1
  | .revealing => 2
  | .completed => 3
  | .expired => 3
  | .cancelled => 3

/-- Concrete commitment hash used to instantiate the external hash function
in witnesses. -/
def specHash (amount : Rat) (nonce : String) : String :=
  (if amount < 0 then ("neg-") else ("h-")) ++ nonce

/-- Concrete Active auction for the C8 witness. -/
def c8auction : Auction :=
  { id := "a1", pool_id := "p", start_time := 0, duration := 1, min_bid := 1,
    status := .active, winner := none, winning_bid := none,
    mev_recovered := none, block_number := 0, revealing_since := none }

/-- Concrete store holding only `c8auction`, with no bids. -/
def c8state : EngineState := ⟨[c8auction], []⟩

/-- Tie-break example bid A of spec section 8: amount 5, reveal time 10. -/
def tieBidA : Bid :=
  { bid_id := "b-a", auction_id := "a1", bidder := "A", commitment := "cA",
    amount := 5, timestamp := 0, revealed := true, reveal_amount := some 5,
    reveal_nonce := some ("nA"), reveal_time := some 10 }

/-- Tie-break example bid B of spec section 8: amount 7, reveal time 12. -/
def tieBidB : Bid :=
  { bid_id := "b-b", auction_id := "a1", bidder := "B", commitment := "cB",
    amount := 7, timestamp := 0, revealed := true, reveal_amount := some 7,
    reveal_nonce := some ("nB"), reveal_time := some 12 }

/-- Tie-break example bid C of spec section 8: amount 7, reveal time 9. -/
def tieBidC : Bid :=
  { bid_id := "b-c", auction_id := "a1", bidder := "C", commitment := "cC",
    amount := 7, timestamp := 0, revealed := true, reveal_amount := some 7,
    reveal_nonce := some ("nC"), reveal_time := some 9 }

/-- The three revealed example bids of spec section 8. -/
def tieExampleBids : List Bid := [tieBidA, tieBidB, tieBidC]

/-- Concrete Revealing auction for the C1 witness. -/
def c1auction : Auction :=
  { id := "a1", pool_id := "p", start_time := 0, duration := 1, min_bid := 1,
    status := .revealing, winner := none, winning_bid := none,
    mev_recovered := none, block_number := 0, revealing_since := some 60 }

/-- Concrete revealed bid for the C1 witness. -/
def c1bid : Bid :=
  { bid_id := "b0", auction_id := "a1", bidder := "alice", commitment := "c",
    amount := 2, timestamp := 1, revealed := true, reveal_amount := some 2,
    reveal_nonce := some ("n"), reveal_time := some 61 }

/-- Concrete store for the C1 witness. -/
def c1state : EngineState := ⟨[c1auction], [c1bid]⟩

/-- The store after the successful completion in the C1 witness. -/
def c1state2 : EngineState :=
  updateAuctionRecord c1state ("a1") (completeMutator ("alice") 2)

/-- Operations for the C4 witness: create, activate, one sealed bid, then a
matching reveal. -/
def c4ops : List Op :=
  [.create ("p") 12 1 0 0,
   .activate ("auction-"),
   .submit ("auction-") ("alice") 1 (specHash 1 ("n1")) 5,
   .reveal ("auction-") ("alice") 1 ("n1") 20]

/-- Placeholder bid used only as a getD default. -/
def defaultBid : Bid :=
  { bid_id := "", auction_id := "", bidder := "", commitment := "",
    amount := 0, timestamp := 0, revealed := false, reveal_amount := none,
    reveal_nonce := none, reveal_time := none }

/-- The single (revealed) bid left by running the C4 witness operations. -/
def c4finalBid : Bid :=
  ((runOps specHash initialState c4ops).bids).getD 0 defaultBid

theorem betterBid_lt_iff (b w : Bid) : betterBid b w = true ↔ bidKey b < bidKey w := by
  simp only [betterBid, decide_eq_true_eq, bidKey, Prod.Lex.lt_iff]
  simp [neg_inj]

theorem betterBid_false_iff (b w : Bid) :
    betterBid b w = false ↔ bidKey w ≤ bidKey b := by
  rw [← Bool.not_eq_true, betterBid_lt_iff, not_lt]

theorem foldl_pickBetter_cases (l : List Bid) :
    ∀ acc : Bid, l.foldl pickBetter acc = acc ∨ l.foldl pickBetter acc ∈ l := by
  induction l with
  | nil => intro acc; exact Or.inl rfl
  | cons b t ih =>
    intro acc
    rcases ih (pickBetter acc b) with h | h
    · by_cases hb : betterBid b acc = true
      · right
        rw [List.foldl_cons, h]
        simp [pickBetter, hb]
      · left
        rw [List.foldl_cons, h]
        simp [pickBetter, hb]
    · exact Or.inr (List.mem_cons_of_mem b h)

theorem foldl_pickBetter_best (l : List Bid) :
    ∀ acc x : Bid, (x = acc ∨ x ∈ l) →
      betterBid x (l.foldl pickBetter acc) = false := by
  induction l with
  | nil =>
    rintro acc x (rfl | hx)
    · rw [List.foldl_nil, betterBid_false_iff]
    · cases hx
  | cons b t ih =>
    rintro acc x hx
    rw [List.foldl_cons]
    by_cases hb : betterBid b acc = true
    · have hpb : pickBetter acc b = b := by simp [pickBetter, hb]
      rcases hx with hxe | hx
      · have hbw := ih (pickBetter acc b) b (Or.inl hpb.symm)
        rw [hxe]
        rw [betterBid_false_iff] at hbw ⊢
        rw [betterBid_lt_iff] at hb
        exact le_trans hbw hb.le
      · rcases List.mem_cons.mp hx with hxe | hx
        · rw [hxe]
          exact ih (pickBetter acc b) b (Or.inl hpb.symm)
        · exact ih (pickBetter acc b) x (Or.inr hx)
    · have hpb : pickBetter acc b = acc := by simp [pickBetter, hb]
      rcases hx with hxe | hx
      · rw [hxe]
        exact ih (pickBetter acc b) acc (Or.inl hpb.symm)
      · rcases List.mem_cons.mp hx with hxe | hx
        · have haw := ih (pickBetter acc b) acc (Or.inl hpb.symm)
          rw [hxe]
          rw [betterBid_false_iff] at haw ⊢
          rw [Bool.not_eq_true] at hb
          rw [betterBid_false_iff] at hb
          exact le_trans haw hb
        · exact ih (pickBetter acc b) x (Or.inr hx)

theorem selectWinner_mem {l : List Bid} {w : Bid} (h : selectWinner l = some w) :
    w ∈ l := by
  cases l with
  | nil => cases h
  | cons b t =>
    have hw : t.foldl pickBetter b = w := by
      simpa [selectWinner] using h
    rcases foldl_pickBetter_cases t b with h2 | h2
    · rw [hw] at h2; exact h2 ▸ List.mem_cons_self b t
    · rw [hw] at h2; exact List.mem_cons_of_mem b h2

theorem selectWinner_best {l : List Bid} {w : Bid} (h : selectWinner l = some w) :
    ∀ b ∈ l, betterBid b w = false := by
  cases l with
  | nil => cases h
  | cons b t =>
    have hw : t.foldl pickBetter b = w := by
      simpa [selectWinner] using h
    intro x hx
    rcases List.mem_cons.mp hx with hxe | hx
    · rw [hxe]
      exact hw ▸ foldl_pickBetter_best t b b (Or.inl rfl)
    · exact hw ▸ foldl_pickBetter_best t b x (Or.inr hx)

theorem determineWinner_mem {l : List Bid} {w : Bid}
    (h : determineWinner l = some w) : w ∈ l ∧ w.revealed = true := by
  have := selectWinner_mem h
  have h2 := List.mem_filter.mp this
  exact ⟨h2.1, h2.2⟩

theorem determineWinner_best {l : List Bid} {w : Bid}
    (h : determineWinner l = some w) :
    ∀ b ∈ l, b.revealed = true → betterBid b w = false := by
  intro b hb hrev
  exact selectWinner_best h b (List.mem_filter.mpr ⟨hb, hrev⟩)

theorem determineWinner_isSome {l : List Bid}
    (hb : ∃ b ∈ l, b.revealed = true) : ∃ w, determineWinner l = some w := by
  obtain ⟨b, hbl, hrev⟩ := hb
  have hmem : b ∈ l.filter (fun b => b.revealed) := List.mem_filter.mpr ⟨hbl, hrev⟩
  unfold determineWinner
  cases hf : l.filter (fun b => b.revealed) with
  | nil => rw [hf] at hmem; cases hmem
  | cons x t => exact ⟨t.foldl pickBetter x, rfl⟩

theorem mem_auctionBids {s : EngineState} {auction_id : String} {b : Bid} :
    b ∈ auctionBids s auction_id ↔ b ∈ s.bids ∧ b.auction_id = auction_id := by
  simp [auctionBids, List.mem_filter]

/-- C9: every request to GET /metrics resolves the name `Response`, which is
bound nowhere in server.py's module scope, so the handler raises NameError
and never returns the Prometheus payload. -/
theorem c9_metrics_name_error (payload : String) :
    prometheus_metrics payload serverModuleNames =
      PyOutcome.nameError ("Response") ∧
    ∀ v, prometheus_metrics payload serverModuleNames ≠ PyOutcome.ok v := by
  have h1 : prometheus_metrics payload serverModuleNames =
      PyOutcome.nameError ("Response") := rfl
  refine ⟨h1, ?_⟩
  intro v h
  rw [h1] at h
  cases h

/-- C10: GET /health reports the constant timestamp literal regardless of the
current time, and reports a service's health as false whenever the
corresponding global handle is uninitialized. -/
theorem c10_health_check (now now2 : Int) (a p o : Option Bool) :
    (health_check now a p o).timestamp = "2024-01-01T00:00:00Z" ∧
    health_check now a p o = health_check now2 a p o ∧
    (a = none → (health_check now a p o).auction_service = false) ∧
    (p = none → (health_check now a p o).price_service = false) ∧
    (o = none → (health_check now a p o).operator_service = false) := by
  refine ⟨rfl, rfl, ?_, ?_, ?_⟩ <;> rintro rfl <;> rfl

/-- C10 witness: the health payload at a concrete uninitialized state. -/
theorem c10_health_check_witness :
    (health_check 0 none none none).timestamp = "2024-01-01T00:00:00Z" ∧
    (health_check 0 none none none).auction_service = false :=
  ⟨(c10_health_check 0 1 none none none).1,
   (c10_health_check 0 1 none none none).2.2.1 rfl⟩

/-- C5: createAuction fails with InvalidArgument when duration lies outside
[1,60] minutes or min_bid is below the configured floor, and otherwise
returns a new auction in Pending status. -/
theorem c5_create_auction (s : EngineState) (pool_id : String) (duration : Int)
    (min_bid : Rat) (block_number : Nat) (now : Int) :
    ((duration < 1 ∨ 60 < duration ∨ min_bid < MIN_BID_FLOOR) →
      createAuction s pool_id duration min_bid block_number now =
        Except.error ErrKind.invalidArgument) ∧
    (1 ≤ duration → duration ≤ 60 → MIN_BID_FLOOR ≤ min_bid →
      ∃ a s2, createAuction s pool_id duration min_bid block_number now =
          Except.ok (a, s2) ∧ a.status = AuctionStatus.pending ∧
          a.pool_id = pool_id ∧ a.duration = duration ∧ a.min_bid = min_bid ∧
          a.start_time = now ∧ s2.auctions = s.auctions ++ [a] ∧
          s2.bids = s.bids) := by
  constructor
  · intro h
    unfold createAuction
    rw [if_pos h]
  · intro h1 h2 h3
    have hc : ¬(duration < 1 ∨ 60 < duration ∨ min_bid < MIN_BID_FLOOR) := by
      push_neg
      exact ⟨h1, h2, h3⟩
    unfold createAuction
    rw [if_neg hc]
    exact ⟨_, _, rfl, rfl, rfl, rfl, rfl, rfl, rfl, rfl⟩

/-- C5 witness: a rejected out-of-range duration and an accepted request. -/
theorem c5_create_auction_witness :
    (createAuction initialState ("p1") 0 1 0 0 =
      Except.error ErrKind.invalidArgument) ∧
    ∃ a s2, createAuction initialState ("p1") 12 1 0 0 =
        Except.ok (a, s2) ∧ a.status = AuctionStatus.pending ∧
        a.pool_id = "p1" ∧ a.duration = 12 ∧ a.min_bid = 1 ∧
        a.start_time = 0 ∧ s2.auctions = initialState.auctions ++ [a] ∧
        s2.bids = initialState.bids :=
  ⟨(c5_create_auction initialState ("p1") 0 1 0 0).1 (Or.inl (by norm_num)),
   (c5_create_auction initialState ("p1") 12 1 0 0).2 (by norm_num)
     (by norm_num) (by norm_num [MIN_BID_FLOOR])⟩

/-- C6: submitBid requires an existing Active auction (NotFound when absent,
InvalidState otherwise), appends a bid with revealed false recording the
commitment, and performs no check of amount against min_bid at submission. -/
theorem c6_submit_bid (s : EngineState) (auction_id bidder : String)
    (amount : Rat) (commitment : String) (now : Int) :
    (s.auctions.find? (fun a => a.id == auction_id) = none →
      submitBid s auction_id bidder amount commitment now =
        Except.error ErrKind.notFound) ∧
    (∀ a, s.auctions.find? (fun a => a.id == auction_id) = some a →
      a.status ≠ AuctionStatus.active →
      submitBid s auction_id bidder amount commitment now =
        Except.error ErrKind.invalidState) ∧
    (∀ a, s.auctions.find? (fun a => a.id == auction_id) = some a →
      a.status = AuctionStatus.active →
      ∃ b s2, submitBid s auction_id bidder amount commitment now =
          Except.ok (b, s2) ∧ b.revealed = false ∧
          b.commitment = commitment ∧ b.auction_id = auction_id ∧
          b.bidder = bidder ∧ s2.bids = s.bids ++ [b] ∧
          s2.auctions = s.auctions) ∧
    (∀ a, s.auctions.find? (fun a => a.id == auction_id) = some a →
      a.status = AuctionStatus.active → amount < a.min_bid →
      ∃ b s2, submitBid s auction_id bidder amount commitment now =
          Except.ok (b, s2)) := by
  refine ⟨?_, ?_, ?_, ?_⟩
  · intro h
    unfold submitBid
    rw [h]
  · intro a ha hs
    unfold submitBid
    rw [ha]
    simp only [if_neg hs]
  · intro a ha hs
    unfold submitBid
    rw [ha]
    simp only [if_pos hs]
    exact ⟨_, _, rfl, rfl, rfl, rfl, rfl, rfl, rfl⟩
  · intro a ha hs _
    unfold submitBid
    rw [ha]
    simp only [if_pos hs]
    exact ⟨_, _, rfl⟩

theorem getElem?_append_of_some {α : Type} {l l2 : List α} {i : Nat} {a : α}
    (h : l[i]? = some a) : (l ++ l2)[i]? = some a := by
  induction l generalizing i with
  | nil => simp at h
  | cons x t ih =>
    cases i with
    | zero => simpa using h
    | succ n =>
      rw [List.cons_append]
      simpa using ih (by simpa using h)

theorem getElem?_map_of_some {α β : Type} {f : α → β} {l : List α} {i : Nat}
    {a : α} (h : l[i]? = some a) : (l.map f)[i]? = some (f a) := by
  induction l generalizing i with
  | nil => simp at h
  | cons x t ih =>
    cases i with
    | zero =>
      simp only [List.getElem?_cons_zero, Option.some.injEq] at h
      simp [h]
    | succ n => simpa using ih (by simpa using h)

theorem markFirstReveal_eq_none (H : Rat → String → String)
    (auction_id bidder : String) (amount : Rat) (nonce : String) (now : Int) :
    ∀ l : List Bid,
      (∀ b ∈ l, b.auction_id = auction_id → b.bidder = bidder →
        b.revealed = false → verify H b.commitment amount nonce = false) →
      markFirstReveal H auction_id bidder amount nonce now l = none := by
  intro l
  induction l with
  | nil => intro _; rfl
  | cons b t ih =>
    intro h
    have hguard : (b.auction_id == auction_id && b.bidder == bidder
        && !b.revealed && verify H b.commitment amount nonce) = false := by
      by_cases h1 : b.auction_id = auction_id
      · by_cases h2 : b.bidder = bidder
        · cases hrev : b.revealed
          · have hv := h b (List.mem_cons_self b t) h1 h2 hrev
            simp [h1, h2, hrev, hv]
          · simp [hrev]
        · simp [h2]
      · simp [h1]
    have ht := ih (fun x hx hx1 hx2 hx3 => h x (List.mem_cons_of_mem b hx) hx1 hx2 hx3)
    simp [markFirstReveal, hguard, ht]

/-- C7: when no unrevealed bid of the bidder on the auction has a commitment
matching (amount, nonce), the engine's revealBid returns false rather than
raising, leaves the store unchanged, and the reveal_bid route handler maps
the false result to an HTTP 400 client error. -/
theorem c7_reveal_bid_false_maps_400 (H : Rat → String → String)
    (s : EngineState) (auction_id bidder : String) (amount : Rat)
    (nonce : String) (now : Int)
    (h : ∀ b ∈ s.bids, b.auction_id = auction_id → b.bidder = bidder →
      b.revealed = false → verify H b.commitment amount nonce = false) :
    (revealBid H s auction_id bidder amount nonce now).1 = false ∧
    (revealBid H s auction_id bidder amount nonce now).2 = s ∧
    (reveal_bid H s auction_id bidder amount nonce now).1 =
      RouteResult.httpError 400 ("Failed to reveal bid") := by
  have hrb : revealBid H s auction_id bidder amount nonce now = (false, s) := by
    unfold revealBid
    cases hf : s.auctions.find? (fun a => a.id == auction_id) with
    | none => rfl
    | some a =>
      dsimp only
      by_cases hst : a.status = AuctionStatus.revealing ∨
          a.status = AuctionStatus.active
      · rw [if_pos hst,
          markFirstReveal_eq_none H auction_id bidder amount nonce now s.bids h]
      · rw [if_neg hst]
  refine ⟨by rw [hrb], by rw [hrb], ?_⟩
  simp [reveal_bid, hrb]

/-- C7 witness: revealing against the empty store yields false and HTTP 400. -/
theorem c7_witness :
    (revealBid specHash initialState ("a0") ("x") 1 ("n") 0).1 = false ∧
    (revealBid specHash initialState ("a0") ("x") 1 ("n") 0).2 = initialState ∧
    (reveal_bid specHash initialState ("a0") ("x") 1 ("n") 0).1 =
      RouteResult.httpError 400 ("Failed to reveal bid") :=
  c7_reveal_bid_false_maps_400 specHash initialState ("a0") ("x") 1 ("n") 0
    (by intro b hb; simp [initialState] at hb)

theorem tickAuction_active (s : EngineState) (rw now : Int) (a : Auction)
    (hact : a.status = AuctionStatus.active) :
    tickAuction s rw now a =
      if a.start_time + a.duration * 60 ≤ now then
        if (auctionBids s a.id).isEmpty then { a with status := .expired }
        else { a with
               status := .revealing
               revealing_since := some now }
      else a := by
  unfold tickAuction
  rw [hact]

/-- C8: on the next Monitor tick, an Active auction whose bidding window has
elapsed transitions directly to Expired when it has zero bids, never to
Revealing, and to Revealing when it has at least one bid. -/
theorem c8_monitor_tick (s : EngineState) (rw now : Int) (i : Nat) (a : Auction)
    (hi : s.auctions[i]? = some a) (hact : a.status = AuctionStatus.active)
    (hel : a.start_time + a.duration * 60 ≤ now) :
    ∃ a2, (monitorTick s rw now).auctions[i]? = some a2 ∧
      (auctionBids s a.id = [] → a2.status = AuctionStatus.expired) ∧
      (auctionBids s a.id ≠ [] → a2.status = AuctionStatus.revealing) := by
  refine ⟨tickAuction s rw now a, getElem?_map_of_some hi, ?_, ?_⟩
  · intro hnil
    rw [tickAuction_active s rw now a hact, if_pos hel]
    simp [hnil]
  · intro hne
    have hie : (auctionBids s a.id).isEmpty = false := by
      cases hq : auctionBids s a.id with
      | nil => exact absurd hq hne
      | cons x t => rfl
    rw [tickAuction_active s rw now a hact, if_pos hel]
    simp [hie]


/-- C8 witness: a tick at time 100 on the bid-less elapsed auction. -/
theorem c8_monitor_tick_witness :
    ∃ a2, (monitorTick c8state 10 100).auctions[0]? = some a2 ∧
      (auctionBids c8state c8auction.id = [] → a2.status = AuctionStatus.expired) ∧
      (auctionBids c8state c8auction.id ≠ [] → a2.status = AuctionStatus.revealing) :=
  c8_monitor_tick c8state 10 100 0 c8auction rfl rfl (by norm_num [c8auction])

theorem betterBid_false_le {b w : Bid} (h : betterBid b w = false) :
    revAmt b ≤ revAmt w ∧ (revAmt b = revAmt w → revT w ≤ revT b) ∧
    (revAmt b = revAmt w → revT b = revT w → w.bidder ≤ b.bidder) := by
  have h2 : ¬(revAmt w < revAmt b ∨ (revAmt b = revAmt w ∧
      (revT b < revT w ∨ (revT b = revT w ∧ b.bidder < w.bidder)))) := by
    simpa [betterBid, decide_eq_false_iff_not] using h
  push_neg at h2
  exact ⟨h2.1, fun he => (h2.2 he).1, fun he ht => (h2.2 he).2 ht⟩


/-- C3: winner determination selects the revealed bid of maximum amount,
breaking ties by earliest reveal timestamp and then by lexicographically
smallest bidder; on the spec example A(5, t10), B(7, t12), C(7, t9) it
picks C. -/
theorem c3_winner_determination :
    (∀ l : List Bid, (∃ b ∈ l, b.revealed = true) →
      ∃ w, determineWinner l = some w ∧ w ∈ l ∧ w.revealed = true ∧
        ∀ b ∈ l, b.revealed = true →
          revAmt b ≤ revAmt w ∧
          (revAmt b = revAmt w → revT w ≤ revT b) ∧
          (revAmt b = revAmt w → revT b = revT w → w.bidder ≤ b.bidder)) ∧
    determineWinner tieExampleBids = some tieBidC := by
  constructor
  · intro l hb
    obtain ⟨w, hw⟩ := determineWinner_isSome hb
    obtain ⟨hmem, hrev⟩ := determineWinner_mem hw
    refine ⟨w, hw, hmem, hrev, ?_⟩
    intro b hbl hbrev
    exact betterBid_false_le (determineWinner_best hw b hbl hbrev)
  · decide

/-- C3 witness: the general theorem applied at the spec's concrete example. -/
theorem c3_winner_determination_witness :
    ∃ w, determineWinner tieExampleBids = some w ∧ w ∈ tieExampleBids ∧
      w.revealed = true ∧
      ∀ b ∈ tieExampleBids, b.revealed = true →
        revAmt b ≤ revAmt w ∧
        (revAmt b = revAmt w → revT w ≤ revT b) ∧
        (revAmt b = revAmt w → revT b = revT w → w.bidder ≤ b.bidder) :=
  c3_winner_determination.1 tieExampleBids ⟨tieBidA, by decide, by decide⟩

/-- C1: completeAuction succeeds only when the named winner has a revealed
bid of exactly winning_bid on the auction and no revealed bid on the auction
has a strictly higher amount; hence it never succeeds with winning_bid below
the maximum revealed amount. -/
theorem c1_complete_auction (s : EngineState) (auction_id winner : String)
    (winning_bid : Rat) (s2 : EngineState)
    (h : completeAuction s auction_id winner winning_bid = Except.ok s2) :
    (∃ b ∈ s.bids, b.auction_id = auction_id ∧ b.revealed = true ∧
      b.bidder = winner ∧ revAmt b = winning_bid) ∧
    ∀ b ∈ s.bids, b.auction_id = auction_id → b.revealed = true →
      revAmt b ≤ winning_bid := by
  unfold completeAuction at h
  cases hf : s.auctions.find? (fun a => a.id == auction_id) with
  | none => rw [hf] at h; cases h
  | some a =>
    rw [hf] at h
    dsimp only at h
    by_cases hst : a.status = AuctionStatus.revealing ∨
        a.status = AuctionStatus.active
    case neg => rw [if_neg hst] at h; cases h
    case pos =>
    rw [if_pos hst] at h
    cases hw : determineWinner (auctionBids s auction_id) with
    | none => rw [hw] at h; cases h
    | some w =>
      rw [hw] at h
      dsimp only at h
      by_cases hcw : w.bidder = winner ∧ revAmt w = winning_bid
      case neg => rw [if_neg hcw] at h; cases h
      case pos =>
      obtain ⟨hmem, hrev⟩ := determineWinner_mem hw
      obtain ⟨hmem2, haid⟩ := mem_auctionBids.mp hmem
      constructor
      · exact ⟨w, hmem2, haid, hrev, hcw.1, hcw.2⟩
      · intro b hbl hbid hbrev
        have hbm : b ∈ auctionBids s auction_id := mem_auctionBids.mpr ⟨hbl, hbid⟩
        have hbw := determineWinner_best hw b hbm hbrev
        have hle := (betterBid_false_le hbw).1
        exact hcw.2 ▸ hle


/-- C1 witness: a successful completion at a concrete store. -/
theorem c1_complete_auction_witness :
    (∃ b ∈ c1state.bids, b.auction_id = "a1" ∧ b.revealed = true ∧
      b.bidder = "alice" ∧ revAmt b = 2) ∧
    ∀ b ∈ c1state.bids, b.auction_id = "a1" → b.revealed = true →
      revAmt b ≤ 2 :=
  c1_complete_auction c1state ("a1") ("alice") 2 c1state2 (by rfl)

theorem markFirstReveal_preserves (H : Rat → String → String)
    (auction_id bidder : String) (amount : Rat) (nonce : String) (now : Int) :
    ∀ l l2 : List Bid,
      markFirstReveal H auction_id bidder amount nonce now l = some l2 →
      (∀ b ∈ l, revealedOk H b) → ∀ b ∈ l2, revealedOk H b := by
  intro l
  induction l with
  | nil => intro l2 h; cases h
  | cons b t ih =>
    intro l2 h hinv
    by_cases hg : (b.auction_id == auction_id && b.bidder == bidder
        && !b.revealed && verify H b.commitment amount nonce) = true
    · unfold markFirstReveal at h
      rw [if_pos hg] at h
      injection h with h2
      subst h2
      have hver : H amount nonce = b.commitment := by
        have hv : verify H b.commitment amount nonce = true := by
          simp only [Bool.and_eq_true] at hg
          exact hg.2
        simpa [verify] using hv
      intro x hx
      rcases List.mem_cons.mp hx with hxe | hx
      · rw [hxe]
        intro _
        exact ⟨amount, nonce, rfl, rfl, hver⟩
      · exact hinv x (List.mem_cons_of_mem b hx)
    · unfold markFirstReveal at h
      rw [if_neg hg] at h
      cases hm : markFirstReveal H auction_id bidder amount nonce now t with
      | none => rw [hm] at h; cases h
      | some t2 =>
        rw [hm] at h
        simp only [Option.map_some', Option.some.injEq] at h
        subst h
        intro x hx
        rcases List.mem_cons.mp hx with hxe | hx
        · rw [hxe]
          exact hinv b (List.mem_cons_self b t)
        · exact ih t2 hm (fun z hz => hinv z (List.mem_cons_of_mem b hz)) x hx

theorem applyOp_preserves_inv (H : Rat → String → String) (op : Op)
    (s : EngineState) (hinv : InvRevealed H s) :
    InvRevealed H (applyOp H s op) := by
  cases op with
  | create pool_id duration min_bid block_number now =>
    simp only [applyOp]
    unfold createAuction
    by_cases hc : (duration < 1 ∨ 60 < duration ∨ min_bid < MIN_BID_FLOOR)
    · rw [if_pos hc]; exact hinv
    · rw [if_neg hc]; exact hinv
  | activate auction_id => exact hinv
  | submit auction_id bidder amount commitment now =>
    simp only [applyOp]
    unfold submitBid
    cases hf : s.auctions.find? (fun a => a.id == auction_id) with
    | none => exact hinv
    | some a =>
      dsimp only
      by_cases hst : a.status = AuctionStatus.active
      · rw [if_pos hst]
        intro b hb
        rcases List.mem_append.mp hb with hb | hb
        · exact hinv b hb
        · simp only [List.mem_singleton] at hb
          rw [hb]
          intro hrev
          cases hrev
      · rw [if_neg hst]; exact hinv
  | reveal auction_id bidder amount nonce now =>
    simp only [applyOp]
    unfold revealBid
    cases hf : s.auctions.find? (fun a => a.id == auction_id) with
    | none => exact hinv
    | some a =>
      dsimp only
      by_cases hst : a.status = AuctionStatus.revealing ∨
          a.status = AuctionStatus.active
      · rw [if_pos hst]
        cases hm : markFirstReveal H auction_id bidder amount nonce now s.bids with
        | none => exact hinv
        | some bids2 =>
          dsimp only
          intro b hb
          exact markFirstReveal_preserves H auction_id bidder amount nonce now
            s.bids bids2 hm hinv b hb
      · rw [if_neg hst]; exact hinv
  | complete auction_id winner winning_bid =>
    simp only [applyOp]
    unfold completeAuction
    cases hf : s.auctions.find? (fun a => a.id == auction_id) with
    | none => exact hinv
    | some a =>
      dsimp only
      by_cases hst : a.status = AuctionStatus.revealing ∨
          a.status = AuctionStatus.active
      · rw [if_pos hst]
        cases hw : determineWinner (auctionBids s auction_id) with
        | none => exact hinv
        | some w =>
          dsimp only
          by_cases hcw : w.bidder = winner ∧ revAmt w = winning_bid
          · rw [if_pos hcw]; exact hinv
          · rw [if_neg hcw]; exact hinv
      · rw [if_neg hst]; exact hinv
  | cancel auction_id => exact hinv
  | tick rw now => exact hinv

theorem runOps_preserves_inv (H : Rat → String → String) (ops : List Op) :
    ∀ s : EngineState, InvRevealed H s → InvRevealed H (runOps H s ops) := by
  induction ops with
  | nil => exact fun s h => h
  | cons op rest ih =>
    exact fun s h => ih (applyOp H s op) (applyOp_preserves_inv H op s h)

/-- C4: in every state reachable from the empty store by engine, monitor or
administrative operations, every bid marked revealed carries reveal values
(amount, nonce) whose recomputed commitment equals its stored commitment
byte-for-byte; a bid whose commitment matches no supplied pair is never
marked revealed. -/
theorem c4_revealed_commitment_invariant (H : Rat → String → String)
    (ops : List Op) : InvRevealed H (runOps H initialState ops) :=
  runOps_preserves_inv H ops initialState
    (fun b hb => absurd hb (List.not_mem_nil b))


/-- C4 witness: the invariant instantiated at the concrete revealed bid. -/
theorem c4_revealed_commitment_witness :
    ∃ amt non, c4finalBid.reveal_amount = some amt ∧
      c4finalBid.reveal_nonce = some non ∧
      specHash amt non = c4finalBid.commitment :=
  c4_revealed_commitment_invariant specHash c4ops c4finalBid
    (by decide) (by decide)

theorem tickAuction_status_step (s : EngineState) (rw now : Int) (y : Auction) :
    (tickAuction s rw now y).status = y.status ∨
    ForwardStepP y.status (tickAuction s rw now y).status := by
  unfold tickAuction
  cases hys : y.status with
  | active =>
    by_cases hel : y.start_time + y.duration * 60 ≤ now
    · rw [if_pos hel]
      by_cases hie : (auctionBids s y.id).isEmpty = true
      · rw [if_pos hie]; right; rfl
      · rw [if_neg hie]; right; rfl
    · rw [if_neg hel]; left; exact hys
  | revealing =>
    by_cases hd : (match y.revealing_since with
        | some t => decide (t + rw ≤ now) | none => false) = true
    · rw [if_pos hd]
      cases hw : determineWinner (auctionBids s y.id) with
      | none => right; rfl
      | some w => right; rfl
    · rw [if_neg hd]; left; exact hys
  | pending => left; exact hys
  | completed => left; exact hys
  | expired => left; exact hys
  | cancelled => left; exact hys

theorem applyOp_auctions_shape (H : Rat → String → String) (op : Op)
    (s : EngineState) :
    (applyOp H s op).auctions = s.auctions ∨
    (∃ x, (applyOp H s op).auctions = s.auctions ++ [x]) ∨
    (∃ f : Auction → Auction,
      (∀ y, (f y).status = y.status ∨ ForwardStepP y.status (f y).status) ∧
      (applyOp H s op).auctions = s.auctions.map f) := by
  cases op with
  | create pool_id duration min_bid block_number now =>
    simp only [applyOp]
    unfold createAuction
    by_cases hc : (duration < 1 ∨ 60 < duration ∨ min_bid < MIN_BID_FLOOR)
    · rw [if_pos hc]; exact Or.inl rfl
    · rw [if_neg hc]; exact Or.inr (Or.inl ⟨_, rfl⟩)
  | activate auction_id =>
    refine Or.inr (Or.inr ⟨fun a => if a.id == auction_id then
      (if a.status = AuctionStatus.pending then { a with status := .active }
       else a) else a, ?_, rfl⟩)
    intro y
    dsimp only
    by_cases hid : (y.id == auction_id) = true
    · rw [if_pos hid]
      by_cases hp : y.status = AuctionStatus.pending
      · rw [if_pos hp]
        right
        show ForwardStepP y.status AuctionStatus.active
        rw [hp]
        rfl
      · rw [if_neg hp]; left; rfl
    · rw [if_neg hid]; left; rfl
  | submit auction_id bidder amount commitment now =>
    simp only [applyOp]
    unfold submitBid
    cases hf : s.auctions.find? (fun a => a.id == auction_id) with
    | none => exact Or.inl rfl
    | some a =>
      dsimp only
      by_cases hst : a.status = AuctionStatus.active
      · rw [if_pos hst]; exact Or.inl rfl
      · rw [if_neg hst]; exact Or.inl rfl
  | reveal auction_id bidder amount nonce now =>
    simp only [applyOp]
    unfold revealBid
    cases hf : s.auctions.find? (fun a => a.id == auction_id) with
    | none => exact Or.inl rfl
    | some a =>
      dsimp only
      by_cases hst : a.status = AuctionStatus.revealing ∨
          a.status = AuctionStatus.active
      · rw [if_pos hst]
        cases hm : markFirstReveal H auction_id bidder amount nonce now s.bids with
        | none => exact Or.inl rfl
        | some bids2 => exact Or.inl rfl
      · rw [if_neg hst]; exact Or.inl rfl
  | complete auction_id winner winning_bid =>
    simp only [applyOp]
    unfold completeAuction
    cases hf : s.auctions.find? (fun a => a.id == auction_id) with
    | none => exact Or.inl rfl
    | some a =>
      dsimp only
      by_cases hst : a.status = AuctionStatus.revealing ∨
          a.status = AuctionStatus.active
      · rw [if_pos hst]
        cases hw : determineWinner (auctionBids s auction_id) with
        | none => exact Or.inl rfl
        | some w =>
          dsimp only
          by_cases hcw : w.bidder = winner ∧ revAmt w = winning_bid
          · rw [if_pos hcw]
            refine Or.inr (Or.inr ⟨fun a => if a.id == auction_id then
              completeMutator winner winning_bid a else a, ?_, rfl⟩)
            intro y
            dsimp only
            by_cases hid : (y.id == auction_id) = true
            · rw [if_pos hid]
              unfold completeMutator
              by_cases hys : y.status = AuctionStatus.revealing ∨
                  y.status = AuctionStatus.active
              · rw [if_pos hys]
                right
                show ForwardStepP y.status AuctionStatus.completed
                rcases hys with hp | hp <;> rw [hp] <;> rfl
              · rw [if_neg hys]; left; rfl
            · rw [if_neg hid]; left; rfl
          · rw [if_neg hcw]; exact Or.inl rfl
      · rw [if_neg hst]; exact Or.inl rfl
  | cancel auction_id =>
    refine Or.inr (Or.inr ⟨fun a => if a.id == auction_id then
      (if a.status = AuctionStatus.pending ∨ a.status = AuctionStatus.active
       then { a with status := .cancelled } else a) else a, ?_, rfl⟩)
    intro y
    dsimp only
    by_cases hid : (y.id == auction_id) = true
    · rw [if_pos hid]
      by_cases hp : y.status = AuctionStatus.pending ∨
          y.status = AuctionStatus.active
      · rw [if_pos hp]
        right
        show ForwardStepP y.status AuctionStatus.cancelled
        rcases hp with hp | hp <;> rw [hp] <;> rfl
      · rw [if_neg hp]; left; rfl
    · rw [if_neg hid]; left; rfl
  | tick rw now =>
    exact Or.inr (Or.inr ⟨tickAuction s rw now,
      tickAuction_status_step s rw now, rfl⟩)

theorem applyOp_status_step (H : Rat → String → String) (op : Op)
    (s : EngineState) (i : Nat) (a : Auction)
    (h : s.auctions[i]? = some a) :
    ∃ a2, (applyOp H s op).auctions[i]? = some a2 ∧
      (a2.status = a.status ∨ ForwardStepP a.status a2.status) := by
  rcases applyOp_auctions_shape H op s with heq | ⟨x, heq⟩ | ⟨f, hf, heq⟩
  · exact ⟨a, by rw [heq]; exact h, Or.inl rfl⟩
  · exact ⟨a, by rw [heq]; exact getElem?_append_of_some h, Or.inl rfl⟩
  · exact ⟨f a, by rw [heq]; exact getElem?_map_of_some h, hf a⟩

theorem runOps_status_rtg (H : Rat → String → String) (ops : List Op) :
    ∀ (s : EngineState) (i : Nat) (a : Auction), s.auctions[i]? = some a →
      ∃ a2, (runOps H s ops).auctions[i]? = some a2 ∧
        Relation.ReflTransGen ForwardStepP a.status a2.status := by
  induction ops with
  | nil => exact fun s i a h => ⟨a, h, Relation.ReflTransGen.refl⟩
  | cons op rest ih =>
    intro s i a h
    obtain ⟨a1, h1, hstep⟩ := applyOp_status_step H op s i a h
    obtain ⟨a2, h2, hrtg⟩ := ih (applyOp H s op) i a1 h1
    refine ⟨a2, h2, ?_⟩
    rcases hstep with he | hst
    · rw [he] at hrtg; exact hrtg
    · exact Relation.ReflTransGen.trans (Relation.ReflTransGen.single hst) hrtg

theorem forwardStep_rank :
    ∀ x y, forwardStep x y = true → statusRank x < statusRank y := by decide

theorem rtg_rank_mono {x y : AuctionStatus}
    (h : Relation.ReflTransGen ForwardStepP x y) :
    statusRank x ≤ statusRank y := by
  induction h with
  | refl => exact le_refl _
  | tail _ hbc ih => exact le_trans ih (forwardStep_rank _ _ hbc).le

theorem rtg_sources {x y : AuctionStatus}
    (h : Relation.ReflTransGen ForwardStepP x y) :
    (y = AuctionStatus.pending → x = AuctionStatus.pending) ∧
    (y = AuctionStatus.active →
      x = AuctionStatus.pending ∨ x = AuctionStatus.active) ∧
    (y = AuctionStatus.cancelled → x = AuctionStatus.pending ∨
      x = AuctionStatus.active ∨ x = AuctionStatus.cancelled) := by
  induction h with
  | refl =>
    exact ⟨fun h2 => h2, fun h2 => Or.inr h2, fun h2 => Or.inr (Or.inr h2)⟩
  | @tail b c h1 h2 ih =>
    have hnp : ∀ st, forwardStep st AuctionStatus.pending = false := by decide
    have hna : ∀ st, forwardStep st AuctionStatus.active = true →
        st = AuctionStatus.pending := by decide
    have hnc : ∀ st, forwardStep st AuctionStatus.cancelled = true →
        st = AuctionStatus.pending ∨ st = AuctionStatus.active := by decide
    refine ⟨?_, ?_, ?_⟩
    · intro hy
      subst hy
      rw [ForwardStepP, hnp b] at h2
      cases h2
    · intro hy
      subst hy
      exact Or.inl (ih.1 (hna b h2))
    · intro hy
      subst hy
      rcases hnc b h2 with hb | hb
      · exact Or.inl (ih.1 hb)
      · rcases ih.2.1 hb with hx | hx
        · exact Or.inl hx
        · exact Or.inr (Or.inl hx)

/-- C2: under every sequence of engine, monitor or administrative operations,
each auction's status only moves along the forward edges of the lifecycle
ordering Pending → Active → Revealing → Completed or Expired (reflexive
transitive closure of `forwardStep`), so its rank never decreases (no
backward move), and it reaches Cancelled only from Pending or Active. -/
theorem c2_status_forward (H : Rat → String → String) (ops : List Op)
    (s : EngineState) (i : Nat) (a : Auction) (h : s.auctions[i]? = some a) :
    ∃ a2, (runOps H s ops).auctions[i]? = some a2 ∧
      Relation.ReflTransGen ForwardStepP a.status a2.status ∧
      statusRank a.status ≤ statusRank a2.status ∧
      (a2.status = AuctionStatus.cancelled →
        a.status = AuctionStatus.pending ∨ a.status = AuctionStatus.active ∨
        a.status = AuctionStatus.cancelled) := by
  obtain ⟨a2, h2, hrtg⟩ := runOps_status_rtg H ops s i a h
  exact ⟨a2, h2, hrtg, rtg_rank_mono hrtg, (rtg_sources hrtg).2.2⟩

/-- C2 witness: cancelling the concrete Active auction of `c8state`. -/
theorem c2_status_forward_witness :
    ∃ a2, (runOps specHash c8state [Op.cancel ("a1")]).auctions[0]? = some a2 ∧
      Relation.ReflTransGen ForwardStepP c8auction.status a2.status ∧
      statusRank c8auction.status ≤ statusRank a2.status ∧
      (a2.status = AuctionStatus.cancelled →
        c8auction.status = AuctionStatus.pending ∨
        c8auction.status = AuctionStatus.active ∨
        c8auction.status = AuctionStatus.cancelled) :=
  c2_status_forward specHash [Op.cancel ("a1")] c8state 0 c8auction rfl

/-- C6 witness: a sealed bid accepted into the concrete Active auction. -/
theorem c6_submit_bid_witness :
    ∃ b s2, submitBid c8state ("a1") ("alice") 5 ("com") 3 =
        Except.ok (b, s2) ∧ b.revealed = false ∧ b.commitment = "com" ∧
        b.auction_id = "a1" ∧ b.bidder = "alice" ∧
        s2.bids = c8state.bids ++ [b] ∧ s2.auctions = c8state.auctions :=
  (c6_submit_bid c8state ("a1") ("alice") 5 ("com") 3).2.2.1 c8auction rfl rfl

/-- C9 witness: the handler's outcome at a concrete payload. -/
theorem c9_metrics_name_error_witness :
    prometheus_metrics ("payload") serverModuleNames =
      PyOutcome.nameError ("Response") :=
  (c9_metrics_name_error ("payload")).1

end LVRAuction
